import Mathlib

/-!
Verification of the `gimme` dependency-injection container.

Shallow embedding of `src/gimme/injectors.py`, `src/gimme/utils.py` and
`src/gimme/providers.py`.  Python's dynamic values are modelled by the
inductive type `Value`: every value carries an identity (`vid`), the list of
user classes it is an instance of (`classes`), and the three runtime
protocols the engine dispatches on, each optional: a context-manager payload
(`cm`, the value its enter step yields), an iterator identity (`iterId`,
indexing a mutable store of remaining elements held in the run state), and a
call protocol (`fn`, carrying the data `inspect.signature` reports plus a
defunctionalised body).  Bodies are the closed set of behaviours exercised by
the repository and its tests: return the i-th parameter (`utils.get`),
construct a fresh instance (a class constructor), raise, pull the next
element from a shared iterator (the closure over `itertools.count` used in
the tests), and the `singleton` combinator's check-cell-then-run-underlying
behaviour.

Dependency keys (`Key`) are compared by decidable equality, as Python
compares type hints by equality and hash; a key records its unparameterised
origin (what `typing.get_origin(hint) or hint` yields) and a parameter tag
distinguishing distinct parameterisations of one origin.  Since a key is
itself a Python object and `providers.get(key, key)` can hand the key to
`unwrap` as a provider, the world carries `keyValue`, the runtime object a
key denotes (for a class key: the class, which is callable).

Effects are explicit: the per-run cache and the acquired-scope list live in
`Ctx` together with the process-global iterator store, the `singleton`
cells, and an event trace recording every provider invocation, scope entry,
scope exit and iterator pull.  Exceptions are the `Res.exc` outcome;
`Res.fuelOut` reports exhaustion of the step budget (Python divergence or
stack overflow) and is distinct from every exception.
-/

namespace Gimme

/-- Unparameterised origin of a type hint.  The three abstract-base-class
origins the engine's `match` dispatches on are distinguished from ordinary
user classes, mirroring the structural `isinstance` checks against
`AbstractContextManager`, `Iterator` and `Callable`. -/
inductive Origin where
  | user (n : Nat)
  | cmO
  | iterO
  | callO
deriving DecidableEq

/-- A dependency key: the origin `typing.get_origin(hint) or hint` reports,
plus a tag separating distinct parameterisations of the same origin (tag 0
is the bare, unparameterised hint).  Keys are compared by equality, as
Python dict keys are. -/
structure Key where
  origin : Origin
  paramTag : Nat
deriving DecidableEq

/-- Parameter passing convention, mirroring `inspect.Parameter.kind`. -/
inductive PKind where
  | posOnly
  | posOrKw
  | kwOnly
  | varPos
  | varKw
deriving DecidableEq

/-- One parameter of a signature: its name (names are numbered; 0 stands
for the literal Python name self and 1 for cls), its kind, and its declared
dependency key (the annotation after `get_annotations` substitution). -/
structure Param where
  pname : Nat
  kind : PKind
  ann : Key
deriving DecidableEq

/-- Which branch of `injectable_signature`'s if-chain recognises the
target: `isclass`, `isfunction`, `ismethod`, or the fallback
`callable(instance)` (an object with a call method). -/
inductive TKind where
  | cls
  | func
  | method
  | callObj
deriving DecidableEq

/-- Defunctionalised body of a callable value: the closed set of behaviours
the repository's providers and tests exhibit.  `proj i` returns the value
bound to the i-th declared parameter (`utils.get`); `mkObj` constructs a
fresh instance (a class constructor); `raiseE` raises; `pullRet i` returns
the next element of the shared iterator `i` (a closure over an iterator, as
in the tests' `next_number`); `singletonB cell inner` is the provider built
by `providers.singleton`: return the cell's cached value if set, otherwise
run the underlying body and fill the cell. -/
inductive FnBody where
  | proj (i : Nat)
  | mkObj (vid : Nat) (classes : List Nat)
  | raiseE (code : Nat)
  | pullRet (iterId : Nat)
  | singletonB (cellId : Nat) (inner : FnBody)
deriving DecidableEq

/-- Call-protocol data of a value: how `injectable_signature` classifies
it, the parameter list `inspect.signature(target)` reports (for a class
this still contains the leading self slot; for a bound method or a callable
object's bound call method, self is already stripped), and the body. -/
structure FnData where
  tkind : TKind
  rawParams : List Param
  body : FnBody
deriving DecidableEq

/-- A runtime value: identity, user classes it is an instance of, and its
optional context-manager, iterator and call protocols.  A single value may
expose several protocols at once, exactly as a Python object may. -/
inductive Value where
  | mk (vid : Nat) (classes : List Nat) (cm : Option Value)
       (iterId : Option Nat) (fn : Option FnData)

def Value.vid : Value → Nat
  | .mk i _ _ _ _ => i

def Value.classes : Value → List Nat
  | .mk _ c _ _ _ => c

def Value.cm : Value → Option Value
  | .mk _ _ c _ _ => c

def Value.iterId : Value → Option Nat
  | .mk _ _ _ i _ => i

def Value.fn : Value → Option FnData
  | .mk _ _ _ _ f => f

/-- Observable events: a callable invoked, a scope entered or exited
(identified by the context manager's value identity), an element pulled
from a shared iterator. -/
inductive Event where
  | invoke (vid : Nat)
  | enterScope (vid : Nat)
  | exitScope (vid : Nat)
  | pulled (iterId : Nat)
deriving DecidableEq

/-- Exceptions the modelled code can raise. -/
inductive Exc where
  | typeError
  | indexError
  | stopIteration
  | userExc (code : Nat)
deriving DecidableEq

/-- Outcome of a computation: a value, a propagating exception, or
exhaustion of the step budget (modelling Python divergence). -/
inductive Res (α : Type) where
  | ok (a : α)
  | exc (e : Exc)
  | fuelOut

/-- Mutable state threaded through a run: the per-run resolved-value cache
and acquired-scope list of `_InjectorContext` (most recently entered scope
first, as `ExitStack` releases last-in first-out), plus process-global
state: the iterator stores, the `singleton` cells, and the event trace
(oldest event first).  Store updates prepend; lookups take the first
match. -/
structure Ctx where
  cache : List (Key × Value)
  entered : List Value
  iters : List (Nat × List Value)
  cells : List (Nat × Value)
  trace : List Event

/-- First-match lookup in a key-value association list, the semantics of a
Python dict read. -/
def lookupKV : List (Key × Value) → Key → Option Value
  | [], _ => none
  | (k, v) :: rest, key => if k = key then some v else lookupKV rest key

/-- First-match lookup in a Nat-keyed association list. -/
def lookupN {α : Type} : List (Nat × α) → Nat → Option α
  | [], _ => none
  | (k, v) :: rest, key => if k = key then some v else lookupN rest key

/-- The fixed collaborators of a run: the provider mapping supplied to the
`Injector`, and the runtime object each key denotes (used when the key
stands in as its own provider). -/
structure World where
  providers : List (Key × Value)
  keyValue : Key → Value

/-- Does the value satisfy an origin?  User origins consult the value's
class list; the abstract origins are the structural protocol checks
`isinstance` performs for `AbstractContextManager`, `Iterator` and
`Callable`. -/
def isInstOf (v : Value) : Origin → Bool
  | .user n => v.classes.contains n
  | .cmO => v.cm.isSome
  | .iterO => v.iterId.isSome
  | .callO => v.fn.isSome

/-- `utils.is_instance_of_type_hint`: `isinstance(value, get_origin(hint)
or hint)` - the check is against the key's unparameterised origin only. -/
def is_instance_of_type_hint (v : Value) (k : Key) : Bool :=
  isInstOf v k.origin

/-- Whether `injectable_signature` sets `drop_self` for a target of the
given classification: true for classes (`__init__` is inspected), bound
methods, and callable objects (`__call__` is a bound method); false for
plain functions. -/
def dropSelf : TKind → Bool
  | .cls => true
  | .func => false
  | .method => true
  | .callObj => true

/-- `utils.injectable_signature`: classify the target, failing with
TypeError when it has no call protocol; then, when `drop_self` holds,
inspect the first parameter - on an empty parameter list the subscript
`parameters[0]` raises IndexError - and pop it when it is named self or
cls.  Annotations are already substituted into each `Param`. -/
def injectable_signature (v : Value) : Except Exc (List Param) :=
  match v.fn with
  | none => .error .typeError
  | some fd =>
    if dropSelf fd.tkind then
      match fd.rawParams with
      | [] => .error .indexError
      | p :: rest =>
        if p.pname = 0 ∨ p.pname = 1 then .ok rest else .ok fd.rawParams
    else .ok fd.rawParams

/-- Pull the next element from shared iterator `i`: StopIteration when it
is exhausted; otherwise the head element, recording the pull. -/
def pullFrom (st : Ctx) (i : Nat) : Res Value × Ctx :=
  match lookupN st.iters i with
  | none => (.exc .typeError, st)
  | some [] => (.exc .stopIteration, st)
  | some (v :: rest) =>
    (.ok v, { st with iters := (i, rest) :: st.iters,
                      trace := st.trace ++ [.pulled i] })

/-- Bind resolved arguments back to the declared parameters, positional
values in declared order and keyword values by name, producing the body's
environment (var-kind parameters bind nothing). -/
def bindArgs : List Param → List Value → List (Nat × Value) → Option (List Value)
  | [], _, _ => some []
  | p :: ps, args, kwargs =>
    match p.kind with
    | .posOnly | .posOrKw =>
      match args with
      | v :: args2 => (bindArgs ps args2 kwargs).map (v :: ·)
      | [] => none
    | .kwOnly =>
      match lookupN kwargs p.pname with
      | some v => (bindArgs ps args kwargs).map (v :: ·)
      | none => none
    | .varPos | .varKw => bindArgs ps args kwargs

/-- Execute a defunctionalised body in an argument environment. -/
def runBody (st : Ctx) (env : List Value) : FnBody → Res Value × Ctx
  | .proj i =>
    match env.get? i with
    | some v => (.ok v, st)
    | none => (.exc .typeError, st)
  | .mkObj vid classes => (.ok (.mk vid classes none none none), st)
  | .raiseE code => (.exc (.userExc code), st)
  | .pullRet i => pullFrom st i
  | .singletonB cellId inner =>
    match lookupN st.cells cellId with
    | some v => (.ok v, st)
    | none =>
      match runBody st env inner with
      | (.ok v, st1) => (.ok v, { st1 with cells := (cellId, v) :: st1.cells })
      | other => other

/-- Invoke a callable value on already-resolved arguments: bind them to the
declared parameters, record the invocation, run the body. -/
def applyFn (st : Ctx) (fv : Value) (ps : List Param) (args : List Value)
    (kwargs : List (Nat × Value)) : Res Value × Ctx :=
  match fv.fn with
  | none => (.exc .typeError, st)
  | some fd =>
    match bindArgs ps args kwargs with
    | none => (.exc .typeError, st)
    | some env =>
      runBody { st with trace := st.trace ++ [.invoke fv.vid] } env fd.body

/-- The provider `_InjectorContext.provide` looks up:
`self._providers.get(key, key)` - the registered provider, or the key's own
runtime object when none is registered. -/
def providerOf (w : World) (k : Key) : Value :=
  (lookupKV w.providers k).getD (w.keyValue k)

mutual

/-- `_InjectorContext.provide`: answer from the per-run cache when the key
is present; otherwise unwrap the looked-up provider and memoise the result
under the key.  A failed unwrap propagates with no cache write by this
frame. -/
def provide (fuel : Nat) (w : World) (st : Ctx) (key : Key) : Res Value × Ctx :=
  match fuel with
  | 0 => (.fuelOut, st)
  | f + 1 =>
    match lookupKV st.cache key with
    | some v => (.ok v, st)
    | none =>
      match unwrap f w st (providerOf w key) key with
      | (.ok v, st1) => (.ok v, { st1 with cache := (key, v) :: st1.cache })
      | other => other

/-- `_InjectorContext.unwrap`: return the value unchanged when it already
satisfies the key's shape; otherwise dispatch, in order, on the
context-manager protocol (enter the scope, register it for release, return
the entered value), the iterator protocol (return the next element), and
the call protocol (perform an injected invocation and unwrap its result
against the same key); a value with none of these is returned as-is. -/
def unwrap (fuel : Nat) (w : World) (st : Ctx) (value : Value) (key : Key) :
    Res Value × Ctx :=
  match fuel with
  | 0 => (.fuelOut, st)
  | f + 1 =>
    if is_instance_of_type_hint value key then (.ok value, st)
    else
      match value.cm with
      | some inner =>
        (.ok inner, { st with entered := value :: st.entered,
                              trace := st.trace ++ [.enterScope value.vid] })
      | none =>
        match value.iterId with
        | some i => pullFrom st i
        | none =>
          match value.fn with
          | some _ =>
            match call_with_injection f w st value with
            | (.ok r, st1) => unwrap f w st1 r key
            | other => other
          | none => (.ok value, st)

/-- `_InjectorContext.call_with_injection`: compute the injectable
signature (propagating its failure), resolve every declared parameter's
key in declared order, and invoke the callable with the positional values
in declared order and the keyword values by name, returning its result or
propagating its failure unchanged. -/
def call_with_injection (fuel : Nat) (w : World) (st : Ctx) (fv : Value) :
    Res Value × Ctx :=
  match fuel with
  | 0 => (.fuelOut, st)
  | f + 1 =>
    match injectable_signature fv with
    | .error e => (.exc e, st)
    | .ok ps =>
      match resolveParams f w st ps with
      | (.ok (args, kwargs), st1) => applyFn st1 fv ps args kwargs
      | (.exc e, st1) => (.exc e, st1)
      | (.fuelOut, st1) => (.fuelOut, st1)

/-- The parameter loop of `call_with_injection`: resolve each parameter's
annotation in declared order, appending the value to the positional list
for positional kinds and to the keyword list for keyword-only parameters
(var-kind parameters are resolved but passed nowhere, as the source's
`match` has no case for them); the first failure aborts the loop. -/
def resolveParams (fuel : Nat) (w : World) (st : Ctx) (ps : List Param) :
    Res (List Value × List (Nat × Value)) × Ctx :=
  match fuel with
  | 0 => (.fuelOut, st)
  | f + 1 =>
    match ps with
    | [] => (.ok ([], []), st)
    | p :: rest =>
      match provide f w st p.ann with
      | (.ok v, st1) =>
        match resolveParams f w st1 rest with
        | (.ok (args, kwargs), st2) =>
          match p.kind with
          | .posOnly | .posOrKw => (.ok (v :: args, kwargs), st2)
          | .kwOnly => (.ok (args, (p.pname, v) :: kwargs), st2)
          | .varPos | .varKw => (.ok (args, kwargs), st2)
        | other => other
      | (.exc e, st1) => (.exc e, st1)
      | (.fuelOut, st1) => (.fuelOut, st1)

end

/-- Entering `_InjectorContext`: the fresh context of one run - an empty
cache and an empty acquired-scope list; process-global state persists. -/
def freshRun (st : Ctx) : Ctx :=
  { st with cache := [], entered := [] }

/-- `_InjectorContext.__exit__`: clear the per-run cache and release every
acquired scope, most recently entered first (the `ExitStack` unwind),
recording each release. -/
def teardown (st : Ctx) : Ctx :=
  { st with cache := [], entered := [],
            trace := st.trace ++ st.entered.map (fun v => Event.exitScope v.vid) }

/-- The key under which `Injector.__init__` registers the injector itself:
the `Injector` class (user class number 2). -/
def injectorKey : Key := ⟨.user 2, 0⟩

/-- `{**providers, Injector: self}`: the provider mapping augmented with
the injector's self-registration, which shadows any user entry for the
injector key. -/
def augmentedProviders (w : World) (selfV : Value) : World :=
  { w with providers := (injectorKey, selfV) :: w.providers }

/-- `Injector.run`: execute the target inside a fresh context bound to the
augmented provider mapping, then tear the context down on every exit path,
propagating the target's outcome. -/
def Injector_run (fuel : Nat) (w : World) (selfV : Value) (st : Ctx)
    (target : Value) : Res Value × Ctx :=
  let r := call_with_injection fuel (augmentedProviders w selfV) (freshRun st) target
  (r.1, teardown r.2)

/-- `utils.get`: a plain one-parameter function returning its argument,
whose parameter is annotated with the requested key. -/
def get (k : Key) : Value :=
  .mk 900 [] none none (some ⟨.func, [⟨5, .posOrKw, k⟩], .proj 0⟩)

/-! Concrete fixtures used by witnesses and counterexamples. -/

/-- Empty starting state. -/
def ctx0 : Ctx := ⟨[], [], [], [], []⟩

/-- The key for plain integers (user class 10). -/
def intK : Key := ⟨.user 10, 0⟩

/-- An integer instance. -/
def oneV : Value := .mk 100 [10] none none none

/-- A plain object exposing no protocol at all. -/
def dummyV : Value := .mk 999 [] none none none

/-- A world registering a literal instance for the integer key. -/
def w1 : World := ⟨[(intK, oneV)], fun _ => dummyV⟩

/-- A successful provide of the cached-literal scenario. -/
def stA : Ctx := (provide 6 w1 ctx0 intK).2

/-- A value that simultaneously shape-matches the integer key and exposes
the context-manager, iterator and call protocols. -/
def vAll : Value := .mk 40 [10] (some oneV) (some 0) (some ⟨.func, [], .raiseE 0⟩)

/-- Helper: a successful `provide` leaves the key cached with the value it
returned - the cache-hit branch already finds it, and the cache-miss branch
writes it as its final step. -/
theorem provide_ok_cached (f : Nat) (w : World) (st : Ctx) (k : Key) (v : Value)
    (st' : Ctx) (h : provide (f + 1) w st k = (.ok v, st')) :
    lookupKV st'.cache k = some v := by
  rw [provide] at h
  cases hc : lookupKV st.cache k with
  | some c =>
    rw [hc] at h
    obtain ⟨h1, h2⟩ := Prod.mk.injEq .. ▸ h
    cases h1
    cases h2
    exact hc
  | none =>
    rw [hc] at h
    rcases hu : unwrap f w st (providerOf w k) k with ⟨r, s⟩
    rw [hu] at h
    cases r with
    | ok u =>
      simp only [Prod.mk.injEq, Res.ok.injEq] at h
      obtain ⟨rfl, rfl⟩ := h
      simp [lookupKV]
    | exc e => simp only [Prod.mk.injEq] at h; cases h.1
    | fuelOut => simp only [Prod.mk.injEq] at h; cases h.1

/-- Claim C1: within one run, a key resolved once is served from the per-run
cache on every later request: the second `provide` returns the identical
value with the state unchanged - no provider invocation, no scope entry, no
event of any kind happens on the second request. -/
theorem C1_provide_idempotent_within_run (f m : Nat) (w : World) (st : Ctx)
    (k : Key) (v : Value) (st' : Ctx) (h : provide (f + 1) w st k = (.ok v, st')) :
    provide (m + 1) w st' k = (.ok v, st') := by
  have hc := provide_ok_cached f w st k v st' h
  rw [provide, hc]

/-- Witness for C1 on the literal-integer world: the second request returns
the cached instance and leaves the state untouched. -/
theorem C1_witness : provide 4 w1 stA intK = (.ok oneV, stA) :=
  C1_provide_idempotent_within_run 5 3 w1 ctx0 intK oneV stA rfl

/-- Claim C2: `unwrap` tests its branches in the source's priority order -
shape-match first (the value is returned unchanged, whatever other
protocols it exposes: it is never entered, pulled from, or invoked), then
scope entry, then producer pull, then injected invocation, then opaque
pass-through. -/
theorem C2_unwrap_priority_order (f : Nat) (w : World) (st : Ctx) (v : Value)
    (k : Key) :
    (is_instance_of_type_hint v k = true → unwrap (f + 1) w st v k = (.ok v, st)) ∧
    (is_instance_of_type_hint v k = false → ∀ inner, v.cm = some inner →
      unwrap (f + 1) w st v k =
        (.ok inner, { st with entered := v :: st.entered,
                              trace := st.trace ++ [.enterScope v.vid] })) ∧
    (is_instance_of_type_hint v k = false → v.cm = none → ∀ i, v.iterId = some i →
      unwrap (f + 1) w st v k = pullFrom st i) ∧
    (is_instance_of_type_hint v k = false → v.cm = none → v.iterId = none →
      ∀ r st1, v.fn.isSome = true → call_with_injection f w st v = (.ok r, st1) →
      unwrap (f + 1) w st v k = unwrap f w st1 r k) ∧
    (is_instance_of_type_hint v k = false → v.cm = none → v.iterId = none →
      v.fn = none → unwrap (f + 1) w st v k = (.ok v, st)) := by
  refine ⟨?_, ?_, ?_, ?_, ?_⟩
  · intro h
    rw [unwrap, h]
    rfl
  · intro h inner hcm
    rw [unwrap, h, hcm]
    rfl
  · intro h hcm i hit
    rw [unwrap, h, hcm, hit]
    rfl
  · intro h hcm hit r st1 hfn hcall
    obtain ⟨fd, hfd⟩ := Option.isSome_iff_exists.mp hfn
    rw [unwrap, h, hcm, hit, hfd, hcall]
    rfl
  · intro h hcm hit hfn
    rw [unwrap, h, hcm, hit, hfn]
    rfl

/-- Witness for C2: a value exposing all three protocols but already
matching the requested shape is returned as-is, with no state change. -/
theorem C2_witness : unwrap 4 w1 ctx0 vAll intK = (.ok vAll, ctx0) :=
  (C2_unwrap_priority_order 3 w1 ctx0 vAll intK).1 rfl

/-! Fixtures for C3: a context manager whose entered value is itself an
unexhausted iterator that does not match the requested shape. -/

/-- The key of C3's scenario (user class 21). -/
def K3 : Key := ⟨.user 21, 0⟩

/-- The instance the iterator would yield. -/
def kv3 : Value := .mk 83 [21] none none none

/-- An iterator value over shared store 8. -/
def iterV3 : Value := .mk 84 [] none (some 8) none

/-- A context manager whose scope yields the iterator. -/
def cmV3 : Value := .mk 85 [] (some iterV3) none none

/-- A world with no providers for C3's scenario. -/
def w3 : World := ⟨[], fun _ => dummyV⟩

/-- Starting state with store 8 holding one element. -/
def st3 : Ctx := { ctx0 with iters := [(8, [kv3])] }

/-- Counterexample to claim C3: entering the scope returns the entered
value directly - here an iterator that does not match the key and is never
pulled - whereas the claimed re-unwrapping of the entered value would have
pulled it and produced the element instead. -/
theorem C3_counterexample :
    (unwrap 5 w3 st3 cmV3 K3).1 = .ok iterV3 ∧
    is_instance_of_type_hint iterV3 K3 = false ∧
    (unwrap 5 w3 (unwrap 5 w3 st3 cmV3 K3).2 iterV3 K3).1 = .ok kv3 ∧
    iterV3.vid ≠ kv3.vid :=
  ⟨rfl, rfl, rfl, by decide⟩

/-- Claim C3 as amended: only the callable branch of `unwrap` re-enters
`unwrap` on its intermediate result; the scope-entry branch returns the
entered value directly and the producer branch returns the pulled element
directly, without unwrapping them again. -/
theorem C3_branches_return_directly (f : Nat) (w : World) (st : Ctx) (v : Value)
    (k : Key) (h : is_instance_of_type_hint v k = false) :
    (∀ inner, v.cm = some inner → (unwrap (f + 1) w st v k).1 = .ok inner) ∧
    (∀ i e rest, v.cm = none → v.iterId = some i →
      lookupN st.iters i = some (e :: rest) → (unwrap (f + 1) w st v k).1 = .ok e) ∧
    (∀ r st1, v.cm = none → v.iterId = none → v.fn.isSome = true →
      call_with_injection f w st v = (.ok r, st1) →
      unwrap (f + 1) w st v k = unwrap f w st1 r k) := by
  refine ⟨?_, ?_, ?_⟩
  · intro inner hcm
    rw [unwrap, h, hcm]
    rfl
  · intro i e rest hcm hit hstore
    rw [unwrap, h, hcm, hit]
    simp only [pullFrom, hstore]
    rfl
  · intro r st1 hcm hit hfn hcall
    obtain ⟨fd, hfd⟩ := Option.isSome_iff_exists.mp hfn
    rw [unwrap, h, hcm, hit, hfd, hcall]
    rfl

/-- Witness for the amended C3: the producer branch returns the pulled
element itself. -/
theorem C3_witness : (unwrap 5 w3 st3 iterV3 K3).1 = .ok kv3 :=
  (C3_branches_return_directly 4 w3 st3 iterV3 K3 rfl).2.1 8 kv3 [] rfl rfl rfl

/-- Claim C5: a key absent from both the cache and the provider mapping is
resolved with the key's own runtime object standing in as the provider. -/
theorem C5_key_as_own_provider (f : Nat) (w : World) (st : Ctx) (k : Key)
    (hmiss : lookupKV st.cache k = none) (habs : lookupKV w.providers k = none) :
    provide (f + 1) w st k =
      (match unwrap f w st (w.keyValue k) k with
       | (.ok v, st1) => (.ok v, { st1 with cache := (k, v) :: st1.cache })
       | other => other) := by
  rw [provide, hmiss, providerOf, habs, Option.getD]

/-! Fixtures for C5's witness: an unregistered class key whose class object
is callable via its constructor. -/

/-- The unregistered class key (user class 11). -/
def clsK : Key := ⟨.user 11, 0⟩

/-- The class object for `clsK`: classified as a class by the signature
extractor, its constructor declares self plus an integer dependency and
builds an instance of class 11. -/
def classV : Value :=
  .mk 70 [] none none
    (some ⟨.cls, [⟨0, .posOrKw, intK⟩, ⟨6, .posOrKw, intK⟩], .mkObj 71 [11]⟩)

/-- A world with an integer literal registered and `clsK` unregistered but
constructible through `keyValue`. -/
def w5 : World := ⟨[(intK, oneV)], fun k => if k = clsK then classV else dummyV⟩

/-- Witness for C5: the unregistered class key resolves by unwrapping the
class object itself, which ends in the callable branch constructing an
instance. -/
theorem C5_witness :
    provide 8 w5 ctx0 clsK =
      (match unwrap 7 w5 ctx0 (w5.keyValue clsK) clsK with
       | (.ok v, st1) => (.ok v, { st1 with cache := (clsK, v) :: st1.cache })
       | other => other) :=
  C5_key_as_own_provider 7 w5 ctx0 clsK rfl rfl

/-! Fixtures for C7: a provider whose successive invocations first return a
callable that re-requests the key being resolved and then raises, so that a
nested re-entrant resolution of the key succeeds and caches it while the
outer resolution fails. -/

/-- The key of C7's scenario (user class 20). -/
def K7 : Key := ⟨.user 20, 0⟩

/-- The instance the nested resolution produces. -/
def kv7 : Value := .mk 80 [20] none none none

/-- A callable declaring a dependency on `K7` whose body raises. -/
def g7 : Value := .mk 81 [] none none (some ⟨.func, [⟨7, .posOrKw, K7⟩], .raiseE 9⟩)

/-- The stateful provider for `K7`: a zero-parameter closure over shared
iterator 3, as the repository's tests build with `itertools.count`. -/
def p7 : Value := .mk 82 [] none none (some ⟨.func, [], .pullRet 3⟩)

/-- C7's provider mapping. -/
def w7 : World := ⟨[(K7, p7)], fun _ => dummyV⟩

/-- C7's starting state: the shared iterator first yields the re-requesting
callable, then the instance. -/
def st7 : Ctx := { ctx0 with iters := [(3, [g7, kv7])] }

/-- Counterexample to claim C7: the resolution of `K7` fails with the
raised error, yet the cache holds an entry for `K7` - written by the
nested re-entrant resolution that succeeded during the failed attempt. -/
theorem C7_counterexample :
    (provide 30 w7 st7 K7).1 = .exc (.userExc 9) ∧
    lookupKV (provide 30 w7 st7 K7).2.cache K7 = some kv7 :=
  ⟨rfl, rfl⟩

/-- Claim C7 as amended: when resolution of a key fails, the failure
returned by `provide` is exactly the failure produced by unwrapping the
key's provider, and the failing frame adds no cache entry of its own - its
final state is the sub-computation's state unchanged (a nested re-entrant
resolution of the same key inside that sub-computation may still have
cached it). -/
theorem C7_failure_no_frame_store (f : Nat) (w : World) (st : Ctx) (k : Key)
    (e : Exc) (st' : Ctx) (hmiss : lookupKV st.cache k = none)
    (h : provide (f + 1) w st k = (.exc e, st')) :
    unwrap f w st (providerOf w k) k = (.exc e, st') := by
  rw [provide, hmiss] at h
  rcases hu : unwrap f w st (providerOf w k) k with ⟨r, s⟩
  rw [hu] at h
  cases r with
  | ok u => simp only [Prod.mk.injEq] at h; cases h.1
  | exc e2 =>
    simp only [Prod.mk.injEq, Res.exc.injEq] at h
    obtain ⟨rfl, rfl⟩ := h
    rfl
  | fuelOut => simp only [Prod.mk.injEq] at h; cases h.1

/-- A provider that immediately raises. -/
def failP : Value := .mk 86 [] none none (some ⟨.func, [], .raiseE 3⟩)

/-- A world whose integer provider raises. -/
def wF : World := ⟨[(intK, failP)], fun _ => dummyV⟩

/-- Witness for the amended C7: the failing frame's outcome and state are
exactly those of unwrapping the provider. -/
theorem C7_witness :
    unwrap 5 wF ctx0 (providerOf wF intK) intK =
      (.exc (.userExc 3), (provide 6 wF ctx0 intK).2) :=
  C7_failure_no_frame_store 5 wF ctx0 intK (.userExc 3) _ rfl rfl

/-- Claim C8: a target with no call protocol makes `injectable_signature`
raise a usage error immediately, and the error is never caught internally:
`Injector.run` propagates it to its caller, with the torn-down context. -/
theorem C8_noncallable_target_type_error (f : Nat) (w : World) (selfV : Value)
    (st : Ctx) (v : Value) (h : v.fn = none) :
    injectable_signature v = .error .typeError ∧
    Injector_run (f + 1) w selfV st v =
      (.exc .typeError, { st with cache := [], entered := [] }) := by
  have hs : injectable_signature v = .error .typeError := by
    rw [injectable_signature, h]
  refine ⟨hs, ?_⟩
  simp [Injector_run, call_with_injection, hs, teardown, freshRun]

/-- Witness for C8 at a plain non-callable object. -/
theorem C8_witness :
    injectable_signature dummyV = .error .typeError ∧
    Injector_run 5 w1 oneV ctx0 dummyV =
      (.exc .typeError, { ctx0 with cache := [], entered := [] }) :=
  C8_noncallable_target_type_error 4 w1 oneV ctx0 dummyV rfl

/-- Claim C10: a bound method or callable object whose reported parameter
list is empty drives `injectable_signature` into the `parameters[0]`
subscript on an empty list, raising IndexError instead of returning an
empty signature, so `Injector.run` fails on such targets even though they
are callable. -/
theorem C10_empty_bound_signature_index_error (f : Nat) (w : World)
    (selfV : Value) (st : Ctx) (v : Value) (fd : FnData) (hfn : v.fn = some fd)
    (hk : fd.tkind = .method ∨ fd.tkind = .callObj) (hps : fd.rawParams = []) :
    injectable_signature v = .error .indexError ∧
    Injector_run (f + 1) w selfV st v =
      (.exc .indexError, { st with cache := [], entered := [] }) := by
  have hd : dropSelf fd.tkind = true := by
    rcases hk with h | h <;> rw [h] <;> rfl
  have hs : injectable_signature v = .error .indexError := by
    rw [injectable_signature, hfn]
    simp [hd, hps]
  refine ⟨hs, ?_⟩
  simp [Injector_run, call_with_injection, hs, teardown, freshRun]

/-- A zero-parameter bound method value. -/
def boundM : Value := .mk 91 [] none none (some ⟨.method, [], .proj 0⟩)

/-- The scope-entry events of a trace, in order of occurrence. -/
def entersOf : List Event → List Nat
  | [] => []
  | .enterScope i :: es => i :: entersOf es
  | .invoke _ :: es => entersOf es
  | .exitScope _ :: es => entersOf es
  | .pulled _ :: es => entersOf es

theorem entersOf_append (a b : List Event) :
    entersOf (a ++ b) = entersOf a ++ entersOf b := by
  induction a with
  | nil => rfl
  | cons e es ih => cases e <;> simp [entersOf, ih]

/-- State extension: the acquired-scope list has grown by a prefix `d`
(most recently entered first) and the trace's scope-entry events have grown
by exactly those scopes in acquisition order. -/
def StExt (st st' : Ctx) : Prop :=
  ∃ d, st'.entered = d ++ st.entered ∧
    entersOf st'.trace = entersOf st.trace ++ (d.map Value.vid).reverse

theorem StExt_refl (st : Ctx) : StExt st st :=
  ⟨[], rfl, by simp⟩

theorem StExt_trans {a b c : Ctx} (h1 : StExt a b) (h2 : StExt b c) :
    StExt a c := by
  obtain ⟨d1, he1, ht1⟩ := h1
  obtain ⟨d2, he2, ht2⟩ := h2
  exact ⟨d2 ++ d1, by rw [he2, he1, List.append_assoc],
    by rw [ht2, ht1]; simp [List.append_assoc]⟩

theorem pullFrom_ext (st : Ctx) (i : Nat) : StExt st (pullFrom st i).2 := by
  rw [pullFrom]
  cases h : lookupN st.iters i with
  | none => exact StExt_refl st
  | some l =>
    cases l with
    | nil => exact StExt_refl st
    | cons v rest => exact ⟨[], rfl, by simp [entersOf_append, entersOf]⟩

theorem runBody_ext (b : FnBody) (st : Ctx) (env : List Value) :
    (runBody st env b).2.entered = st.entered ∧
    entersOf (runBody st env b).2.trace = entersOf st.trace := by
  induction b generalizing st with
  | proj i =>
    rw [runBody]
    cases env.get? i <;> exact ⟨rfl, rfl⟩
  | mkObj vid classes => exact ⟨rfl, rfl⟩
  | raiseE code => exact ⟨rfl, rfl⟩
  | pullRet i =>
    rw [runBody, pullFrom]
    cases h : lookupN st.iters i with
    | none => exact ⟨rfl, rfl⟩
    | some l =>
      cases l with
      | nil => exact ⟨rfl, rfl⟩
      | cons v rest => exact ⟨rfl, by simp [entersOf_append, entersOf]⟩
  | singletonB cellId inner ih =>
    rw [runBody]
    cases hc : lookupN st.cells cellId with
    | some v => exact ⟨rfl, rfl⟩
    | none =>
      rcases hr : runBody st env inner with ⟨r, s⟩
      have := ih st
      rw [hr] at this
      cases r with
      | ok v => exact this
      | exc e => exact this
      | fuelOut => exact this

theorem applyFn_ext (st : Ctx) (fv : Value) (ps : List Param)
    (args : List Value) (kwargs : List (Nat × Value)) :
    StExt st (applyFn st fv ps args kwargs).2 := by
  rw [applyFn]
  cases fv.fn with
  | none => exact StExt_refl st
  | some fd =>
    cases bindArgs ps args kwargs with
    | none => exact StExt_refl st
    | some env =>
      have h := runBody_ext fd.body
        { st with trace := st.trace ++ [.invoke fv.vid] } env
      exact ⟨[], by simpa using h.1, by simpa [entersOf_append, entersOf] using h.2⟩

theorem resolveParams_zero (w : World) (st : Ctx) (ps : List Param) :
    resolveParams 0 w st ps = (.fuelOut, st) := rfl

theorem resolveParams_nil (f : Nat) (w : World) (st : Ctx) :
    resolveParams (f + 1) w st [] = (.ok ([], []), st) := rfl

theorem resolveParams_cons (f : Nat) (w : World) (st : Ctx) (p : Param)
    (rest : List Param) :
    resolveParams (f + 1) w st (p :: rest) =
      (match provide f w st p.ann with
       | (.ok v, st1) =>
         match resolveParams f w st1 rest with
         | (.ok (args, kwargs), st2) =>
           match p.kind with
           | .posOnly | .posOrKw => (.ok (v :: args, kwargs), st2)
           | .kwOnly => (.ok (args, (p.pname, v) :: kwargs), st2)
           | .varPos | .varKw => (.ok (args, kwargs), st2)
         | other => other
       | (.exc e, st1) => (.exc e, st1)
       | (.fuelOut, st1) => (.fuelOut, st1)) := rfl

theorem call_with_injection_succ (f : Nat) (w : World) (st : Ctx) (fv : Value) :
    call_with_injection (f + 1) w st fv =
      (match injectable_signature fv with
       | .error e => (.exc e, st)
       | .ok ps =>
         match resolveParams f w st ps with
         | (.ok (args, kwargs), st1) => applyFn st1 fv ps args kwargs
         | (.exc e, st1) => (.exc e, st1)
         | (.fuelOut, st1) => (.fuelOut, st1)) := rfl

/-- Every engine operation only extends the acquired-scope list, in step
with the scope-entry events it records. -/
theorem engineExt (f : Nat) :
    (∀ w st k, StExt st (provide f w st k).2) ∧
    (∀ w st v k, StExt st (unwrap f w st v k).2) ∧
    (∀ w st v, StExt st (call_with_injection f w st v).2) ∧
    (∀ w st ps, StExt st (resolveParams f w st ps).2) := by
  induction f with
  | zero =>
    exact ⟨fun w st k => StExt_refl st, fun w st v k => StExt_refl st,
      fun w st v => StExt_refl st, fun w st ps => StExt_refl st⟩
  | succ f ih =>
    obtain ⟨ihP, ihU, ihC, ihR⟩ := ih
    have hprov : ∀ w st k, StExt st (provide (f + 1) w st k).2 := by
      intro w st k
      rw [provide]
      cases hc : lookupKV st.cache k with
      | some v => exact StExt_refl st
      | none =>
        rcases hu : unwrap f w st (providerOf w k) k with ⟨r, s⟩
        have h1 : StExt st s := by
          have := ihU w st (providerOf w k) k
          rw [hu] at this
          exact this
        cases r with
        | ok v => exact h1
        | exc e => exact h1
        | fuelOut => exact h1
    have hres : ∀ w st ps, StExt st (resolveParams (f + 1) w st ps).2 := by
      intro w st ps
      cases ps with
      | nil => exact StExt_refl st
      | cons p rest =>
        rw [resolveParams_cons]
        split
        · rename_i v st1 heq
          have h1 := ihP w st p.ann
          rw [heq] at h1
          split
          · rename_i args kwargs st2 heq2
            have h2 := ihR w st1 rest
            rw [heq2] at h2
            have h3 := StExt_trans h1 h2
            split <;> exact h3
          · exact StExt_trans h1 (ihR w st1 rest)
        · rename_i e st1 heq
          have h1 := ihP w st p.ann
          rw [heq] at h1
          exact h1
        · rename_i st1 heq
          have h1 := ihP w st p.ann
          rw [heq] at h1
          exact h1
    have hcall : ∀ w st v, StExt st (call_with_injection (f + 1) w st v).2 := by
      intro w st v
      rw [call_with_injection_succ]
      split
      · exact StExt_refl st
      · rename_i ps heq
        split
        · rename_i args kwargs st1 heq2
          have h1 := ihR w st ps
          rw [heq2] at h1
          exact StExt_trans h1 (applyFn_ext st1 v ps args kwargs)
        · rename_i e st1 heq2
          have h1 := ihR w st ps
          rw [heq2] at h1
          exact h1
        · rename_i st1 heq2
          have h1 := ihR w st ps
          rw [heq2] at h1
          exact h1
    have hunw : ∀ w st v k, StExt st (unwrap (f + 1) w st v k).2 := by
      intro w st v k
      rw [unwrap]
      cases hi : is_instance_of_type_hint v k with
      | true => exact StExt_refl st
      | false =>
        cases hcm : v.cm with
        | some inner =>
          exact ⟨[v], rfl, by simp [entersOf_append, entersOf]⟩
        | none =>
          cases hit : v.iterId with
          | some i => exact pullFrom_ext st i
          | none =>
            cases hfn : v.fn with
            | none => exact StExt_refl st
            | some fd =>
              rcases hcw : call_with_injection f w st v with ⟨r, s⟩
              have h1 : StExt st s := by
                have := ihC w st v
                rw [hcw] at this
                exact this
              cases r with
              | ok r2 => exact StExt_trans h1 (ihU w s r2 k)
              | exc e => exact h1
              | fuelOut => exact h1
    exact ⟨hprov, hunw, hcall, hres⟩

/-- Claim C4: `Injector.run` always tears the context down before
returning: whatever the outcome of the injected invocation - result or
failure - it propagates unchanged, the per-run cache and acquired-scope
list are cleared, and the scopes acquired during the run (`d`, in
acquisition order) are released in exactly reverse acquisition order,
appended to the trace after everything the run recorded. -/
theorem C4_run_teardown (f : Nat) (w : World) (selfV : Value) (st : Ctx)
    (t : Value) (out : Res Value) (st' : Ctx)
    (h : Injector_run f w selfV st t = (out, st')) :
    ∃ stMid d,
      call_with_injection f (augmentedProviders w selfV) (freshRun st) t
        = (out, stMid) ∧
      st' = teardown stMid ∧
      st'.cache = [] ∧ st'.entered = [] ∧
      entersOf stMid.trace = entersOf st.trace ++ d ∧
      st'.trace = stMid.trace ++ (d.reverse.map Event.exitScope) := by
  rcases hc : call_with_injection f (augmentedProviders w selfV) (freshRun st) t
    with ⟨r, s⟩
  rw [Injector_run] at h
  rw [hc] at h
  simp only [Prod.mk.injEq] at h
  obtain ⟨rfl, rfl⟩ := h
  have hext : StExt (freshRun st) s := by
    have := (engineExt f).2.2.1 (augmentedProviders w selfV) (freshRun st) t
    rw [hc] at this
    exact this
  obtain ⟨d0, he, ht⟩ := hext
  refine ⟨s, (d0.map Value.vid).reverse, rfl, rfl, rfl, rfl, ?_, ?_⟩
  · exact ht
  · show s.trace ++ s.entered.map (fun v => Event.exitScope v.vid) = _
    rw [he]
    simp [freshRun, List.map_map, Function.comp]

/-! Fixtures for C4's witness: a run whose single dependency is provided by
a context manager, so a scope is acquired and then released. -/

/-- The session key (user class 12). -/
def strK : Key := ⟨.user 12, 0⟩

/-- The session instance the scope yields. -/
def sessionV : Value := .mk 95 [12] none none none

/-- A context-manager provider for the session key. -/
def cmProv : Value := .mk 96 [] (some sessionV) none none

/-- C4's world: the session key is provided by the context manager. -/
def w4 : World := ⟨[(strK, cmProv)], fun _ => dummyV⟩

/-- Witness for C4: after the run, the acquired scope has been released
and the teardown facts hold. -/
theorem C4_witness :
    ∃ stMid d,
      call_with_injection 8 (augmentedProviders w4 dummyV) (freshRun ctx0)
        (get strK) = (.ok sessionV, stMid) ∧
      (Injector_run 8 w4 dummyV ctx0 (get strK)).2 = teardown stMid ∧
      (Injector_run 8 w4 dummyV ctx0 (get strK)).2.cache = [] ∧
      (Injector_run 8 w4 dummyV ctx0 (get strK)).2.entered = [] ∧
      entersOf stMid.trace = entersOf ctx0.trace ++ d ∧
      (Injector_run 8 w4 dummyV ctx0 (get strK)).2.trace
        = stMid.trace ++ (d.reverse.map Event.exitScope) :=
  C4_run_teardown 8 w4 dummyV ctx0 (get strK) (.ok sessionV)
    (Injector_run 8 w4 dummyV ctx0 (get strK)).2 rfl

/-- A run of successful `provide` steps, one per declared parameter, in
declared order: each step starts in the state the previous one left. -/
inductive ProvideChain (w : World) : Ctx → List Param → List Value → Ctx → Prop where
  | nil (st : Ctx) : ProvideChain w st [] [] st
  | cons (f : Nat) (st st1 st2 : Ctx) (p : Param) (ps : List Param) (v : Value)
      (vs : List Value) :
      provide f w st p.ann = (.ok v, st1) →
      ProvideChain w st1 ps vs st2 →
      ProvideChain w st (p :: ps) (v :: vs) st2

/-- The resolved values of the positionally-passed parameters, in declared
order. -/
def positionalsOf : List Param → List Value → List Value
  | p :: ps, v :: vs =>
    match p.kind with
    | .posOnly | .posOrKw => v :: positionalsOf ps vs
    | .kwOnly | .varPos | .varKw => positionalsOf ps vs
  | _, _ => []

/-- The resolved values of the keyword-only parameters with their names,
in declared order. -/
def namedOf : List Param → List Value → List (Nat × Value)
  | p :: ps, v :: vs =>
    match p.kind with
    | .kwOnly => (p.pname, v) :: namedOf ps vs
    | .posOnly | .posOrKw | .varPos | .varKw => namedOf ps vs
  | _, _ => []

/-- A successful parameter loop is a chain of `provide` steps in declared
order whose positional and keyword argument lists are the declared-order
selections of the resolved values. -/
theorem resolveParams_chain (w : World) :
    ∀ (ps : List Param) (f : Nat) (st : Ctx) (args : List Value)
      (kwargs : List (Nat × Value)) (st1 : Ctx),
      resolveParams f w st ps = (.ok (args, kwargs), st1) →
      ∃ vs, ProvideChain w st ps vs st1 ∧ args = positionalsOf ps vs ∧
        kwargs = namedOf ps vs := by
  intro ps
  induction ps with
  | nil =>
    intro f st args kwargs st1 h
    cases f with
    | zero => rw [resolveParams_zero] at h; simp at h
    | succ f =>
      rw [resolveParams_nil] at h
      simp only [Prod.mk.injEq, Res.ok.injEq] at h
      obtain ⟨⟨rfl, rfl⟩, rfl⟩ := h
      exact ⟨[], .nil st, rfl, rfl⟩
  | cons p rest ih =>
    intro f st args kwargs st1 h
    cases f with
    | zero => rw [resolveParams_zero] at h; simp at h
    | succ f =>
      rw [resolveParams_cons] at h
      split at h
      · rename_i v s heq
        split at h
        · rename_i args2 kwargs2 st2 heq2
          obtain ⟨vs, hchain, hargs, hkw⟩ := ih f s args2 kwargs2 st2 heq2
          split at h <;>
            rename_i hk <;>
            simp only [Prod.mk.injEq, Res.ok.injEq] at h <;>
            obtain ⟨⟨rfl, rfl⟩, rfl⟩ := h <;>
            exact ⟨v :: vs, .cons f st s st2 p rest v vs heq hchain,
              by simp [positionalsOf, hk, hargs], by simp [namedOf, hk, hkw]⟩
        · rename_i heq2
          exact absurd h (heq2 _ _ _)
      · simp at h
      · simp at h

/-- Claim C6: `call_with_injection` resolves the declared dependency keys
strictly in declared parameter order (a `ProvideChain`), then invokes the
target with the positional values in declared order and the keyword values
by name, its result or failure passing through unchanged. -/
theorem C6_declared_order_injection (f : Nat) (w : World) (st : Ctx) (tv : Value)
    (ps : List Param) (args : List Value) (kwargs : List (Nat × Value)) (st1 : Ctx)
    (hsig : injectable_signature tv = .ok ps)
    (hres : resolveParams f w st ps = (.ok (args, kwargs), st1)) :
    (∃ vs, ProvideChain w st ps vs st1 ∧ args = positionalsOf ps vs ∧
      kwargs = namedOf ps vs) ∧
    call_with_injection (f + 1) w st tv = applyFn st1 tv ps args kwargs := by
  refine ⟨resolveParams_chain w ps f st args kwargs st1 hres, ?_⟩
  simp only [call_with_injection_succ, hsig, hres]

/-! Fixtures for C6's witness: a target with two positionally-declared
dependencies. -/

/-- A second dependency key (user class 13). -/
def bK : Key := ⟨.user 13, 0⟩

/-- An instance of class 13. -/
def bV : Value := .mk 101 [13] none none none

/-- C6's world: literal providers for both keys. -/
def w6 : World := ⟨[(intK, oneV), (bK, bV)], fun _ => dummyV⟩

/-- A target declaring dependencies on `intK` then `bK`, returning the
second. -/
def target2 : Value :=
  .mk 97 [] none none
    (some ⟨.func, [⟨6, .posOrKw, intK⟩, ⟨7, .posOrKw, bK⟩], .proj 1⟩)

/-- Witness for C6 on the two-dependency target. -/
theorem C6_witness :
    (∃ vs, ProvideChain w6 ctx0 [⟨6, .posOrKw, intK⟩, ⟨7, .posOrKw, bK⟩] vs
        (resolveParams 6 w6 ctx0 [⟨6, .posOrKw, intK⟩, ⟨7, .posOrKw, bK⟩]).2 ∧
      [oneV, bV] = positionalsOf [⟨6, .posOrKw, intK⟩, ⟨7, .posOrKw, bK⟩] vs ∧
      ([] : List (Nat × Value))
        = namedOf [⟨6, .posOrKw, intK⟩, ⟨7, .posOrKw, bK⟩] vs) ∧
    call_with_injection 7 w6 ctx0 target2
      = applyFn (resolveParams 6 w6 ctx0 [⟨6, .posOrKw, intK⟩, ⟨7, .posOrKw, bK⟩]).2
          target2 [⟨6, .posOrKw, intK⟩, ⟨7, .posOrKw, bK⟩] [oneV, bV] [] :=
  C6_declared_order_injection 6 w6 ctx0 target2
    [⟨6, .posOrKw, intK⟩, ⟨7, .posOrKw, bK⟩] [oneV, bV] []
    (resolveParams 6 w6 ctx0 [⟨6, .posOrKw, intK⟩, ⟨7, .posOrKw, bK⟩]).2 rfl rfl

/-! Fixtures for C9: the integer key provided by a `singleton`-wrapped
zero-parameter closure over a shared iterator, as in the repository's
`test_inject_singleton`. -/

/-- The value the underlying function yields first. -/
def zeroV : Value := .mk 50 [10] none none none

/-- The `singleton`-wrapped provider: cell 0 caches the result of the
underlying pull from shared iterator 4. -/
def singletonP : Value :=
  .mk 60 [] none none (some ⟨.func, [], .singletonB 0 (.pullRet 4)⟩)

/-- C9's shared provider mapping. -/
def w9 : World := ⟨[(intK, singletonP)], fun _ => dummyV⟩

/-- Claim C9: with the integer key provided by a `singleton`-wrapped
function whose first invocation yields `zeroV`, every run on every injector
sharing the mapping returns `zeroV`: two runs on each of two independently
constructed injectors (arbitrary self-objects `inj1`, `inj2`) all return
it, the underlying function is invoked exactly once ever (one element
consumed from the shared iterator across all four runs), and the cell keeps
the first result. -/
theorem C9_singleton_cross_run (inj1 inj2 : Value) (rest : List Value)
    (c0 : List (Key × Value)) (e0 : List Value) (tr0 : List Event) :
    ∃ s1 s2 s3 s4,
      Injector_run 12 w9 inj1 ⟨c0, e0, [(4, zeroV :: rest)], [], tr0⟩ (get intK)
        = (.ok zeroV, s1) ∧
      Injector_run 12 w9 inj1 s1 (get intK) = (.ok zeroV, s2) ∧
      Injector_run 12 w9 inj2 s2 (get intK) = (.ok zeroV, s3) ∧
      Injector_run 12 w9 inj2 s3 (get intK) = (.ok zeroV, s4) ∧
      lookupN s4.iters 4 = some rest ∧
      lookupN s4.cells 0 = some zeroV :=
  ⟨_, _, _, _, rfl, rfl, rfl, rfl, rfl, rfl⟩

/-- Witness for C10 at a zero-parameter bound method. -/
theorem C10_witness :
    injectable_signature boundM = .error .indexError ∧
    Injector_run 5 w1 oneV ctx0 boundM =
      (.exc .indexError, { ctx0 with cache := [], entered := [] }) :=
  C10_empty_bound_signature_index_error 4 w1 oneV ctx0 boundM
    ⟨.method, [], .proj 0⟩ rfl (Or.inl rfl) rfl

end Gimme
